import Mathlib

/-!
Verification of the Trail CLI (`packages/trail-cli/.eslintrc.cjs`, whose CLI
script follows the eslint configuration block) against its specification.

The development embeds, from the source: the JSON text layer
(`JSON.stringify(x, null, 2)` and `JSON.parse`, as a verified printer/parser
pair over a `JValue` tree), the session files and the plain in-place
`fs.writeFileSync` saves, the CLI commands (`checkout`, `record start`,
`record stop`, `replay`, `end`, `resolve`, `push` — the first five of which
call the undefined identifier `getSessionPath` and so throw an uncaught
`ReferenceError` whenever a session id is in play), and the `detectErrors`
pipeline with its regex cascade and fixed-index group extraction.
-/

/-! ## Character and string utilities (kernel-reducible) -/

/-- Whitespace characters (the JSON-insignificant ones and regex `\s` core). -/
def wsChar (c : Char) : Bool :=
  c = ' ' || c = '\n' || c = '\t' || c = '\r'

/-- Drop leading whitespace characters. -/
def skipWs : List Char → List Char
  | [] => []
  | c :: cs => if wsChar c then skipWs cs else c :: cs

/-- Is every character of the list whitespace? -/
def allWs (l : List Char) : Bool := l.all wsChar

/-- Is the first list a prefix of the second? -/
def isPrefixOfChars : List Char → List Char → Bool
  | [], _ => true
  | _ :: _, [] => false
  | a :: as, b :: bs => a = b && isPrefixOfChars as bs

/-- Fueled splitter on a character-list separator. -/
def splitCharsAux (sep : List Char) : Nat → List Char → List Char → List (List Char)
  | 0, acc, _ => [acc.reverse]
  | fuel + 1, acc, l =>
    match l with
    | [] => [acc.reverse]
    | c :: cs =>
      if isPrefixOfChars sep l then
        acc.reverse :: splitCharsAux sep fuel [] (List.drop sep.length l)
      else
        splitCharsAux sep fuel (c :: acc) cs

/-- Split a string on a (non-empty) separator string. -/
def splitOnStr (s sep : String) : List String :=
  (splitCharsAux sep.data (s.data.length + 1) [] s.data).map String.mk

/-- First line of a text (`text.split('\n')[0]`), or the empty string. -/
def firstLine (s : String) : String := (splitOnStr s "\n").headD ""

/-- Strip leading and trailing whitespace (`String.prototype.trim`). -/
def trimStr (s : String) : String :=
  String.mk (((s.data.dropWhile Char.isWhitespace).reverse.dropWhile
      Char.isWhitespace).reverse)

/-- Drop the first `n` characters of a string. -/
def dropStr (s : String) (n : Nat) : String := String.mk (s.data.drop n)

/-- Does the string start with the given text? -/
def startsWithStr (s pre : String) : Bool := isPrefixOfChars pre.data s.data

/-! ## JSON values -/

/-- JSON values: the results of `JSON.parse` and the inputs of
`JSON.stringify` for this program's data (the numeric leaf covers the
non-negative integers, the only numbers the program's data model uses). -/
inductive JValue where
  | null
  | bool (b : Bool)
  | num (n : Nat)
  | str (s : String)
  | arr (xs : List JValue)
  | obj (fields : List (String × JValue))

/-- JavaScript property read `o.k` on a parsed JSON object: `none` models
`undefined` (missing key or non-object receiver); on duplicate keys
`JSON.parse` keeps the last occurrence, so the last binding wins. -/
def jsGet (v : JValue) (key : String) : Option JValue :=
  match v with
  | JValue.obj fields =>
    (fields.foldl (fun acc kv => if kv.1 = key then some kv.2 else acc) none)
  | _ => none

/-- Replace the binding of a key in a field list, or append it at the end
(JavaScript property assignment on a plain object). -/
def setKeyJ : List (String × JValue) → String → JValue → List (String × JValue)
  | [], k, v => [(k, v)]
  | (k0, v0) :: rest, k, v =>
    if k0 = k then (k, v) :: rest else (k0, v0) :: setKeyJ rest k v

/-- JavaScript property assignment `o.k = v` (no-op on non-objects). -/
def setFieldJ (o : JValue) (k : String) (v : JValue) : JValue :=
  match o with
  | JValue.obj fields => JValue.obj (setKeyJ fields k v)
  | other => other

/-- JavaScript truthiness of a JSON value. -/
def jsTruthy : JValue → Bool
  | JValue.null => false
  | JValue.bool b => b
  | JValue.num n => n ≠ 0
  | JValue.str s => s ≠ ""
  | JValue.arr _ => true
  | JValue.obj _ => true

/-- Does `v.length === 0` hold in JavaScript (for values whose `.length`
exists: arrays and strings; otherwise `undefined === 0` is false)? -/
def jsLenIsZero : JValue → Bool
  | JValue.arr l => l.isEmpty
  | JValue.str s => s = ""
  | _ => false

/-! ## The printer: `JSON.stringify(x, null, 2)` -/

/-- Lowercase hexadecimal digit. -/
def hexDigitChar (n : Nat) : Char :=
  if n < 10 then Char.ofNat (48 + n) else Char.ofNat (87 + n)

/-- `JSON.stringify` escaping of one string character. -/
def escChar (c : Char) : List Char :=
  if c = '"' then ['\\', '"']
  else if c = '\\' then ['\\', '\\']
  else if c = '\n' then ['\\', 'n']
  else if c = '\t' then ['\\', 't']
  else if c = '\r' then ['\\', 'r']
  else if c.toNat = 8 then ['\\', 'b']
  else if c.toNat = 12 then ['\\', 'f']
  else if c.toNat < 32 then
    ['\\', 'u', '0', '0', hexDigitChar (c.toNat / 16), hexDigitChar (c.toNat % 16)]
  else [c]

/-- `JSON.stringify` escaping of a string body. -/
def escStr (s : String) : List Char := (s.data.map escChar).flatten

/-- Decimal digits of a natural number (fueled, kernel-reducible). -/
def natCharsAux : Nat → Nat → List Char → List Char
  | 0, _, acc => acc
  | fuel + 1, n, acc =>
    if n < 10 then Char.ofNat (48 + n) :: acc
    else natCharsAux fuel (n / 10) (Char.ofNat (48 + n % 10) :: acc)

/-- Decimal representation of a natural number. -/
def natChars (n : Nat) : List Char := natCharsAux (n + 1) n []

/-- Indentation: `n` spaces (the third `JSON.stringify` argument is `2`). -/
def indentChars (n : Nat) : List Char := List.replicate n ' '

mutual

/-- `JSON.stringify(v, null, 2)` at nesting indentation `ind`, as
characters; the fuel bounds the recursion depth (any fuel of at least
`jsize v` yields the full output). -/
def printVal : Nat → Nat → JValue → List Char
  | 0, _, _ => []
  | _ + 1, _, JValue.null => ['n', 'u', 'l', 'l']
  | _ + 1, _, JValue.bool true => ['t', 'r', 'u', 'e']
  | _ + 1, _, JValue.bool false => ['f', 'a', 'l', 's', 'e']
  | _ + 1, _, JValue.num n => natChars n
  | _ + 1, _, JValue.str s => '"' :: (escStr s ++ ['"'])
  | _ + 1, _, JValue.arr [] => ['[', ']']
  | fuel + 1, ind, JValue.arr (x :: xs) =>
    '[' :: '\n' :: (printItems fuel (ind + 2) x xs ++ '\n' :: (indentChars ind ++ [']']))
  | _ + 1, _, JValue.obj [] => ['\x7b', '\x7d']
  | fuel + 1, ind, JValue.obj ((k, v) :: fs) =>
    '\x7b' :: '\n' ::
      (printFields fuel (ind + 2) k v fs ++ '\n' :: (indentChars ind ++ ['\x7d']))
termination_by structural fuel ind v => fuel

/-- Array elements, each on its own indented line, comma-separated. -/
def printItems : Nat → Nat → JValue → List JValue → List Char
  | 0, _, _, _ => []
  | fuel + 1, ind, x, [] => indentChars ind ++ printVal fuel ind x
  | fuel + 1, ind, x, y :: ys =>
    (indentChars ind ++ printVal fuel ind x) ++ ',' :: '\n' :: printItems fuel ind y ys
termination_by structural fuel ind x ys => fuel

/-- Object fields, each on its own indented line as `"key": value`. -/
def printFields : Nat → Nat → String → JValue → List (String × JValue) → List Char
  | 0, _, _, _, _ => []
  | fuel + 1, ind, k, v, [] =>
    indentChars ind ++ ('"' :: (escStr k ++ '"' :: ':' :: ' ' :: printVal fuel ind v))
  | fuel + 1, ind, k, v, (k2, v2) :: gs =>
    (indentChars ind ++ ('"' :: (escStr k ++ '"' :: ':' :: ' ' :: printVal fuel ind v)))
      ++ ',' :: '\n' :: printFields fuel ind k2 v2 gs
termination_by structural fuel ind k v gs => fuel

end

/-- `JSON.stringify(v, null, 2)` as a string; the caller supplies a
recursion-depth fuel of at least `jsize v`. -/
def stringifyJ (fuel : Nat) (v : JValue) : String := String.mk (printVal fuel 0 v)

/-! ## The parser: `JSON.parse` -/

/-- Value of a hexadecimal digit character. -/
def hexVal (c : Char) : Option Nat :=
  if '0' ≤ c ∧ c ≤ '9' then some (c.toNat - 48)
  else if 'a' ≤ c ∧ c ≤ 'f' then some (c.toNat - 87)
  else if 'A' ≤ c ∧ c ≤ 'F' then some (c.toNat - 55)
  else none

/-- Value of a decimal digit character. -/
def digitVal (c : Char) : Nat := c.toNat - 48

/-- Consume a run of decimal digits, accumulating their value. -/
def parseDigitsAcc (acc : Nat) : List Char → Nat × List Char
  | [] => (acc, [])
  | c :: cs =>
    if c.isDigit then parseDigitsAcc (acc * 10 + digitVal c) cs else (acc, c :: cs)

/-- Decode a `\\uXXXX` escape: four hex digits and the rest. -/
def parseUEsc : List Char → Option (Char × List Char)
  | h1 :: h2 :: h3 :: h4 :: rest =>
    match hexVal h1, hexVal h2, hexVal h3, hexVal h4 with
    | some a, some b, some c, some d =>
      some (Char.ofNat (((a * 16 + b) * 16 + c) * 16 + d), rest)
    | _, _, _, _ => none
  | _ => none

/-- The character a single-letter escape code denotes. -/
def escCodeChar (e : Char) : Option Char :=
  if e = '"' then some '"'
  else if e = '\\' then some '\\'
  else if e = '/' then some '/'
  else if e = 'n' then some '\n'
  else if e = 't' then some '\t'
  else if e = 'r' then some '\r'
  else if e = 'b' then some (Char.ofNat 8)
  else if e = 'f' then some (Char.ofNat 12)
  else none

/-- Parse a JSON string body (after the opening quote) up to the closing
quote, unescaping; `acc` holds the characters read so far, reversed, and the
fuel bounds the number of source characters. -/
def parseStrAux : Nat → List Char → List Char → Option (String × List Char)
  | 0, _, _ => none
  | fuel + 1, acc, l =>
    match l with
    | [] => none
    | c :: rest =>
      if c = '"' then some (String.mk acc.reverse, rest)
      else if c = '\\' then
        match rest with
        | [] => none
        | e :: rest2 =>
          if e = 'u' then
            match parseUEsc rest2 with
            | some (ch, rest3) => parseStrAux fuel (ch :: acc) rest3
            | none => none
          else
            match escCodeChar e with
            | some ch => parseStrAux fuel (ch :: acc) rest2
            | none => none
      else parseStrAux fuel (c :: acc) rest

mutual

/-- Parse one JSON value (leading whitespace skipped), returning it and the
unconsumed rest; the fuel bounds the nesting and element recursion. -/
def parseVal : Nat → List Char → Option (JValue × List Char)
  | 0, _ => none
  | fuel + 1, cs0 =>
    match skipWs cs0 with
    | [] => none
    | 'n' :: 'u' :: 'l' :: 'l' :: rest => some (JValue.null, rest)
    | 't' :: 'r' :: 'u' :: 'e' :: rest => some (JValue.bool true, rest)
    | 'f' :: 'a' :: 'l' :: 's' :: 'e' :: rest => some (JValue.bool false, rest)
    | '"' :: rest => (parseStrAux (rest.length + 1) [] rest).map (fun p => (JValue.str p.1, p.2))
    | '[' :: rest =>
      (match skipWs rest with
       | ']' :: rest2 => some (JValue.arr [], rest2)
       | _ => (parseItems fuel rest).map (fun p => (JValue.arr p.1, p.2)))
    | '\x7b' :: rest =>
      (match skipWs rest with
       | '\x7d' :: rest2 => some (JValue.obj [], rest2)
       | _ => (parseFields fuel rest).map (fun p => (JValue.obj p.1, p.2)))
    | c :: rest =>
      if c.isDigit then
        let p := parseDigitsAcc (digitVal c) rest
        some (JValue.num p.1, p.2)
      else none
termination_by structural fuel cs => fuel

/-- Parse the elements of a non-empty JSON array up to the closing bracket. -/
def parseItems : Nat → List Char → Option (List JValue × List Char)
  | 0, _ => none
  | fuel + 1, cs => do
    let (v, r1) ← parseVal fuel cs
    match skipWs r1 with
    | ',' :: r2 => do
      let (vs, r3) ← parseItems fuel r2
      pure (v :: vs, r3)
    | ']' :: r2 => pure ([v], r2)
    | _ => none
termination_by structural fuel cs => fuel

/-- Parse the fields of a non-empty JSON object up to the closing brace. -/
def parseFields : Nat → List Char → Option (List (String × JValue) × List Char)
  | 0, _ => none
  | fuel + 1, cs =>
    match skipWs cs with
    | '"' :: r0 => do
      let (k, r1) ← parseStrAux (r0.length + 1) [] r0
      match skipWs r1 with
      | ':' :: r2 => do
        let (v, r3) ← parseVal fuel r2
        match skipWs r3 with
        | ',' :: r4 => do
          let (fs, r5) ← parseFields fuel r4
          pure ((k, v) :: fs, r5)
        | '\x7d' :: r4 => pure ([(k, v)], r4)
        | _ => none
      | _ => none
    | _ => none
termination_by structural fuel cs => fuel

end

/-- `JSON.parse`: parse a complete JSON text (no trailing garbage). -/
def parseJson (s : String) : Option JValue :=
  match parseVal (s.data.length + 1) s.data with
  | some (v, rest) => if skipWs rest = [] then some v else none
  | none => none

mutual

/-- Structural size of a JSON value (a fuel bound for the parser). -/
def jsize : JValue → Nat
  | JValue.arr xs => jsizeL xs + 1
  | JValue.obj fs => jsizeF fs + 1
  | _ => 1
termination_by v => sizeOf v
decreasing_by all_goals (simp <;> omega)

/-- Structural size of a list of JSON values. -/
def jsizeL : List JValue → Nat
  | [] => 0
  | x :: xs => jsize x + jsizeL xs + 1
termination_by xs => sizeOf xs
decreasing_by all_goals (simp <;> omega)

/-- Structural size of a field list. -/
def jsizeF : List (String × JValue) → Nat
  | [] => 0
  | (_, v) :: fs => jsize v + jsizeF fs + 1
termination_by fs => sizeOf fs
decreasing_by all_goals (simp <;> omega)

end

mutual

/-- Does the value contain no numeric leaf?  (The program's session and
config JSON uses ISO-8601 strings for timestamps, so the values it writes
never contain numbers.) -/
def noNum : JValue → Bool
  | JValue.num _ => false
  | JValue.arr xs => noNumL xs
  | JValue.obj fs => noNumF fs
  | _ => true
termination_by v => sizeOf v
decreasing_by all_goals (simp <;> omega)

/-- `noNum` on every element of a list. -/
def noNumL : List JValue → Bool
  | [] => true
  | x :: xs => noNum x && noNumL xs
termination_by xs => sizeOf xs
decreasing_by all_goals (simp <;> omega)

/-- `noNum` on every field value. -/
def noNumF : List (String × JValue) → Bool
  | [] => true
  | (_, v) :: fs => noNum v && noNumF fs
termination_by fs => sizeOf fs
decreasing_by all_goals (simp <;> omega)

end

/-! ## The filesystem -/

/-- A flat filesystem: file path ↦ text content. -/
abbrev FS := List (String × String)

/-- Content of a file, if present. -/
def readFS : FS → String → Option String
  | [], _ => none
  | (q, c) :: rest, p => if q = p then some c else readFS rest p

/-- Write (create or overwrite) a file. -/
def writeFS : FS → String → String → FS
  | [], p, c => [(p, c)]
  | (q, c0) :: rest, p, c =>
    if q = p then (p, c) :: rest else (q, c0) :: writeFS rest p c

/-- Every filesystem state an interrupted `fs.writeFileSync(p, content)` can
leave behind: the file is truncated and rewritten in place, so an
interruption after `k` bytes leaves the `k`-character prefix of the new
content (no temporary file and no rename exist in the source's save paths,
lines 689, 717, 760 and 843). -/
def writeFileSyncTrace (fs : FS) (p content : String) : List FS :=
  fs :: (List.range (content.data.length + 1)).map
    (fun k => writeFS fs p (String.mk (content.data.take k)))

/-! ## Basic lemmas -/

theorem readFS_writeFS_self (fs : FS) (p c : String) :
    readFS (writeFS fs p c) p = some c := by
  induction fs with
  | nil => simp [writeFS, readFS]
  | cons e rest ih =>
    obtain ⟨q, c0⟩ := e
    by_cases h : q = p
    · simp [writeFS, h, readFS]
    · simp [writeFS, h, readFS, ih]

theorem skipWs_append_ws (w : List Char) (hw : allWs w = true) (x : List Char) :
    skipWs (w ++ x) = skipWs x := by
  induction w with
  | nil => rfl
  | cons c cs ih =>
    simp only [allWs, List.all_cons, Bool.and_eq_true] at hw
    simp only [List.cons_append, skipWs, hw.1, if_true]
    exact ih hw.2

theorem skipWs_cons_nonws (c : Char) (cs : List Char) (h : wsChar c = false) :
    skipWs (c :: cs) = c :: cs := by simp [skipWs, h]

theorem skipWs_cons_ws (c : Char) (cs : List Char) (h : wsChar c = true) :
    skipWs (c :: cs) = skipWs cs := by simp [skipWs, h]

theorem allWs_indent (n : Nat) : allWs (indentChars n) = true := by
  induction n with
  | zero => rfl
  | succ m ih =>
    simp only [indentChars, List.replicate_succ, allWs, List.all_cons, Bool.and_eq_true]
    exact ⟨by decide, by simpa [allWs, indentChars] using ih⟩

theorem allWs_append (a b : List Char) (ha : allWs a = true) (hb : allWs b = true) :
    allWs (a ++ b) = true := by
  simp only [allWs, List.all_append, Bool.and_eq_true]
  exact ⟨by simpa [allWs] using ha, by simpa [allWs] using hb⟩

theorem hexVal_hexDigitChar (n : Nat) (h : n < 16) : hexVal (hexDigitChar n) = some n := by
  interval_cases n <;> rfl

theorem parseStrAux_escChar (c : Char) (fuel : Nat) (acc tail : List Char) :
    parseStrAux (fuel + 1) acc (escChar c ++ tail) = parseStrAux fuel (c :: acc) tail := by
  by_cases h1 : c = '"'
  · subst h1
    rw [show escChar '"' = ['\\', '"'] from by decide]
    simp [parseStrAux, escCodeChar]
  by_cases h2 : c = '\\'
  · subst h2
    rw [show escChar '\\' = ['\\', '\\'] from by decide]
    simp [parseStrAux, escCodeChar]
  by_cases h3 : c = '\n'
  · subst h3
    rw [show escChar '\n' = ['\\', 'n'] from by decide]
    simp [parseStrAux, escCodeChar]
  by_cases h4 : c = '\t'
  · subst h4
    rw [show escChar '\t' = ['\\', 't'] from by decide]
    simp [parseStrAux, escCodeChar]
  by_cases h5 : c = '\r'
  · subst h5
    rw [show escChar '\r' = ['\\', 'r'] from by decide]
    simp [parseStrAux, escCodeChar]
  by_cases h6 : c.toNat = 8
  · have hesc : escChar c = ['\\', 'b'] := by simp [escChar, h1, h2, h3, h4, h5, h6]
    have hc : Char.ofNat 8 = c := by rw [← h6, Char.ofNat_toNat]
    rw [hesc]
    simp [parseStrAux, escCodeChar]
    rw [hc]
  by_cases h7 : c.toNat = 12
  · have hesc : escChar c = ['\\', 'f'] := by simp [escChar, h1, h2, h3, h4, h5, h6, h7]
    have hc : Char.ofNat 12 = c := by rw [← h7, Char.ofNat_toNat]
    rw [hesc]
    simp [parseStrAux, escCodeChar]
    rw [hc]
  by_cases h8 : c.toNat < 32
  · have hesc : escChar c =
        ['\\', 'u', '0', '0', hexDigitChar (c.toNat / 16), hexDigitChar (c.toNat % 16)] := by
      simp [escChar, h1, h2, h3, h4, h5, h6, h7, h8]
    rw [hesc]
    have hd1 : hexVal (hexDigitChar (c.toNat / 16)) = some (c.toNat / 16) :=
      hexVal_hexDigitChar _ (by omega)
    have hd2 : hexVal (hexDigitChar (c.toNat % 16)) = some (c.toNat % 16) :=
      hexVal_hexDigitChar _ (by omega)
    have hch : Char.ofNat (c.toNat / 16 * 16 + c.toNat % 16) = c := by
      have harith : c.toNat / 16 * 16 + c.toNat % 16 = c.toNat := by omega
      rw [harith, Char.ofNat_toNat]
    have hv0 : hexVal '0' = some 0 := by decide
    simp [parseStrAux, parseUEsc, hv0, hd1, hd2]
    rw [hch]
  · have hesc : escChar c = [c] := by simp [escChar, h1, h2, h3, h4, h5, h6, h7, h8]
    rw [hesc]
    simp [parseStrAux, h1, h2]

theorem parseStrAux_escList (cs : List Char) :
    ∀ (fuel : Nat) (acc rest : List Char), cs.length + 1 ≤ fuel →
      parseStrAux fuel acc ((cs.map escChar).flatten ++ ('"' :: rest)) =
        some (String.mk (acc.reverse ++ cs), rest) := by
  induction cs with
  | nil =>
    intro fuel acc rest hf
    obtain ⟨f, rfl⟩ : ∃ f, fuel = f + 1 := ⟨fuel - 1, by omega⟩
    simp [parseStrAux]
  | cons c cs ih =>
    intro fuel acc rest hf
    obtain ⟨f, rfl⟩ : ∃ f, fuel = f + 1 := ⟨fuel - 1, by omega⟩
    simp only [List.map_cons, List.flatten_cons, List.append_assoc]
    rw [parseStrAux_escChar, ih f (c :: acc) rest (by simpa using hf)]
    simp

theorem parseStrAux_esc (s : String) (fuel : Nat) (rest : List Char)
    (hf : s.data.length + 1 ≤ fuel) :
    parseStrAux fuel [] (escStr s ++ ('"' :: rest)) = some (s, rest) := by
  obtain ⟨d⟩ := s
  have h := parseStrAux_escList d fuel [] rest (by simpa using hf)
  simpa [escStr] using h

theorem printVal_starts (fuel ind : Nat) (v : JValue) (hn : noNum v = true) :
    ∃ c t, printVal (fuel + 1) ind v = c :: t ∧ wsChar c = false ∧ c ≠ ']' ∧ c ≠ '\x7d' := by
  cases v with
  | null => exact ⟨'n', ['u', 'l', 'l'], by simp [printVal], by decide, by decide, by decide⟩
  | bool b =>
    cases b
    · exact ⟨'f', ['a', 'l', 's', 'e'], by simp [printVal], by decide, by decide, by decide⟩
    · exact ⟨'t', ['r', 'u', 'e'], by simp [printVal], by decide, by decide, by decide⟩
  | num n => simp [noNum] at hn
  | str s =>
    exact ⟨'"', escStr s ++ ['"'], by simp [printVal], by decide, by decide, by decide⟩
  | arr xs =>
    cases xs with
    | nil => exact ⟨'[', [']'], by simp [printVal], by decide, by decide, by decide⟩
    | cons x xs =>
      exact ⟨'[', '\n' :: (printItems fuel (ind + 2) x xs ++
          '\n' :: (indentChars ind ++ [']'])),
        by simp [printVal], by decide, by decide, by decide⟩
  | obj fs =>
    cases fs with
    | nil => exact ⟨'\x7b', ['\x7d'], by simp [printVal], by decide, by decide, by decide⟩
    | cons f fs =>
      obtain ⟨k, v⟩ := f
      exact ⟨'\x7b', '\n' :: (printFields fuel (ind + 2) k v fs ++
          '\n' :: (indentChars ind ++ ['\x7d'])),
        by simp [printVal], by decide, by decide, by decide⟩

theorem skipWs_printItems (fuel ind : Nat) (x : JValue) (xs : List JValue)
    (tail : List Char) (hx : noNum x = true) (hf : 2 ≤ fuel) :
    ∃ c t, skipWs (printItems fuel ind x xs ++ tail) = c :: t ∧
      wsChar c = false ∧ c ≠ ']' ∧ c ≠ '\x7d' := by
  obtain ⟨f, rfl⟩ : ∃ f, fuel = (f + 1) + 1 := ⟨fuel - 2, by omega⟩
  obtain ⟨c, t, hct, hw, h1, h2⟩ := printVal_starts f ind x hx
  cases xs with
  | nil =>
    refine ⟨c, t ++ tail, ?_, hw, h1, h2⟩
    simp only [printItems, List.append_assoc]
    rw [skipWs_append_ws _ (allWs_indent ind), hct]
    simp [skipWs_cons_nonws _ _ hw]
  | cons y ys =>
    refine ⟨c, t ++ (',' :: '\n' :: printItems (f + 1) ind y ys ++ tail), ?_, hw, h1, h2⟩
    simp only [printItems, List.append_assoc, List.cons_append]
    rw [skipWs_append_ws _ (allWs_indent ind), hct]
    simp [skipWs_cons_nonws _ _ hw]

theorem skipWs_printFields (fuel ind : Nat) (k : String) (v : JValue)
    (fs : List (String × JValue)) (tail : List Char) (hf : 1 ≤ fuel) :
    ∃ t, skipWs (printFields fuel ind k v fs ++ tail) = '"' :: t := by
  obtain ⟨f, rfl⟩ : ∃ f, fuel = f + 1 := ⟨fuel - 1, by omega⟩
  cases fs with
  | nil =>
    exact ⟨_, by
      simp only [printFields, List.append_assoc, List.cons_append]
      rw [skipWs_append_ws _ (allWs_indent ind)]
      exact skipWs_cons_nonws _ _ (by decide)⟩
  | cons g gs =>
    obtain ⟨k2, v2⟩ := g
    exact ⟨_, by
      simp only [printFields, List.append_assoc, List.cons_append]
      rw [skipWs_append_ws _ (allWs_indent ind)]
      exact skipWs_cons_nonws _ _ (by decide)⟩


theorem jsize_pos (v : JValue) : 1 ≤ jsize v := by
  cases v <;> simp [jsize]

theorem allWs_cons_nl (l : List Char) (hl : allWs l = true) : allWs ('\n' :: l) = true := by
  simp only [allWs, List.all_cons, Bool.and_eq_true]
  exact ⟨by decide, by simpa [allWs] using hl⟩

theorem escChar_len_pos (c : Char) : 1 ≤ (escChar c).length := by
  unfold escChar
  repeat' split
  all_goals simp

theorem escStr_len_ge (s : String) : s.data.length ≤ (escStr s).length := by
  obtain ⟨d⟩ := s
  show d.length ≤ ((d.map escChar).flatten).length
  induction d with
  | nil => simp
  | cons c cs ih =>
    simp only [List.map_cons, List.flatten_cons, List.length_append, List.length_cons]
    have := escChar_len_pos c
    omega

/-- Round trip of the printer and parser, by induction on the parser fuel:
whitespace-led printed output of a number-free value parses back to exactly
that value, leaving the trailing input untouched. -/
theorem parse_print_all (pf : Nat) :
    (∀ (v : JValue) (pfuel ind : Nat) (w rest : List Char),
        allWs w = true → noNum v = true → jsize v ≤ pf → jsize v ≤ pfuel →
        parseVal pf (w ++ (printVal pfuel ind v ++ rest)) = some (v, rest)) ∧
    (∀ (x : JValue) (xs : List JValue) (pfuel ind : Nat) (w wEnd rest : List Char),
        allWs w = true → allWs wEnd = true → noNum x = true → noNumL xs = true →
        jsizeL (x :: xs) ≤ pf → jsizeL (x :: xs) ≤ pfuel →
        parseItems pf (w ++ (printItems pfuel ind x xs ++ (wEnd ++ (']' :: rest)))) =
          some (x :: xs, rest)) ∧
    (∀ (k : String) (v : JValue) (fs : List (String × JValue)) (pfuel ind : Nat)
        (w wEnd rest : List Char),
        allWs w = true → allWs wEnd = true → noNum v = true → noNumF fs = true →
        jsizeF ((k, v) :: fs) ≤ pf → jsizeF ((k, v) :: fs) ≤ pfuel →
        parseFields pf (w ++ (printFields pfuel ind k v fs ++ (wEnd ++ ('\x7d' :: rest)))) =
          some ((k, v) :: fs, rest)) := by
  induction pf with
  | zero =>
    refine ⟨?_, ?_, ?_⟩
    · intro v _ _ _ _ _ _ hsz _
      have := jsize_pos v
      omega
    · intro x xs _ _ _ _ _ _ _ _ _ hsz _
      have := jsize_pos x
      simp only [jsizeL] at hsz
      omega
    · intro k v fs _ _ _ _ _ _ _ _ _ hsz _
      have := jsize_pos v
      simp only [jsizeF] at hsz
      omega
  | succ pf ih =>
    obtain ⟨ihV, ihI, ihF⟩ := ih
    refine ⟨?_, ?_, ?_⟩
    · -- parseVal
      intro v pfuel ind w rest hw hn hszp hszf
      have hp1 : 1 ≤ pfuel := le_trans (jsize_pos v) hszf
      obtain ⟨pg, rfl⟩ : ∃ pg, pfuel = pg + 1 := ⟨pfuel - 1, by omega⟩
      cases v with
      | null =>
        have e1 : printVal (pg + 1) ind JValue.null ++ rest =
            'n' :: ('u' :: 'l' :: 'l' :: rest) := by simp [printVal]
        simp only [parseVal]
        rw [skipWs_append_ws w hw, e1, skipWs_cons_nonws _ _ (by decide)]
        rfl
      | bool b =>
        cases b with
        | false =>
          have e1 : printVal (pg + 1) ind (JValue.bool false) ++ rest =
              'f' :: ('a' :: 'l' :: 's' :: 'e' :: rest) := by simp [printVal]
          simp only [parseVal]
          rw [skipWs_append_ws w hw, e1, skipWs_cons_nonws _ _ (by decide)]
          rfl
        | true =>
          have e1 : printVal (pg + 1) ind (JValue.bool true) ++ rest =
              't' :: ('r' :: 'u' :: 'e' :: rest) := by simp [printVal]
          simp only [parseVal]
          rw [skipWs_append_ws w hw, e1, skipWs_cons_nonws _ _ (by decide)]
          rfl
      | num n => simp [noNum] at hn
      | str s =>
        have e1 : printVal (pg + 1) ind (JValue.str s) ++ rest =
            '"' :: (escStr s ++ ('"' :: rest)) := by simp [printVal]
        simp only [parseVal]
        rw [skipWs_append_ws w hw, e1, skipWs_cons_nonws _ _ (by decide)]
        have hlen : s.data.length + 1 ≤ (escStr s ++ ('"' :: rest)).length + 1 := by
          have := escStr_len_ge s
          simp only [List.length_append, List.length_cons]
          omega
        simp only [parseStrAux_esc s ((escStr s ++ ('"' :: rest)).length + 1) rest hlen,
          Option.map_some']
      | arr xs =>
        cases xs with
        | nil =>
          have e1 : printVal (pg + 1) ind (JValue.arr []) ++ rest =
              '[' :: (']' :: rest) := by simp [printVal]
          simp only [parseVal]
          rw [skipWs_append_ws w hw, e1, skipWs_cons_nonws _ _ (by decide)]
          rfl
        | cons x xs =>
          have hna : noNum x = true ∧ noNumL xs = true := by
            simpa [noNum, noNumL, Bool.and_eq_true] using hn
          have hjl : jsizeL (x :: xs) + 1 = jsize (JValue.arr (x :: xs)) := by
            simp [jsize]
          have hx1 := jsize_pos x
          have hjlc : jsizeL (x :: xs) = jsize x + jsizeL xs + 1 := by simp [jsizeL]
          have e1 : printVal (pg + 1) ind (JValue.arr (x :: xs)) ++ rest =
              '[' :: ('\n' :: (printItems pg (ind + 2) x xs ++
                (('\n' :: indentChars ind) ++ (']' :: rest)))) := by
            simp [printVal, List.append_assoc]
          simp only [parseVal]
          rw [skipWs_append_ws w hw, e1, skipWs_cons_nonws _ _ (by decide)]
          have hsk : ∃ c t, skipWs ('\n' :: (printItems pg (ind + 2) x xs ++
              (('\n' :: indentChars ind) ++ (']' :: rest)))) = c :: t ∧
              wsChar c = false ∧ c ≠ ']' ∧ c ≠ '\x7d' := by
            rw [skipWs_cons_ws _ _ (by decide)]
            exact skipWs_printItems pg (ind + 2) x xs _ hna.1 (by omega)
          obtain ⟨c, t, hct, hcw, hc1, hc2⟩ := hsk
          simp only [hct]
          split
          · next rest2 heq =>
            exact absurd (List.head_eq_of_cons_eq heq.symm).symm hc1
          · next hne =>
            have hi := ihI x xs pg (ind + 2) ['\n'] ('\n' :: indentChars ind) rest
              (by decide) (allWs_cons_nl _ (allWs_indent ind)) hna.1 hna.2
              (by omega) (by omega)
            simp only [List.cons_append, List.nil_append] at hi ⊢
            rw [hi]
            rfl
      | obj fs =>
        cases fs with
        | nil =>
          have e1 : printVal (pg + 1) ind (JValue.obj []) ++ rest =
              '\x7b' :: ('\x7d' :: rest) := by simp [printVal]
          simp only [parseVal]
          rw [skipWs_append_ws w hw, e1, skipWs_cons_nonws _ _ (by decide)]
          rfl
        | cons f fs =>
          obtain ⟨k, v⟩ := f
          have hna : noNum v = true ∧ noNumF fs = true := by
            simpa [noNum, noNumF, Bool.and_eq_true] using hn
          have hjf : jsizeF ((k, v) :: fs) + 1 = jsize (JValue.obj ((k, v) :: fs)) := by
            simp [jsize]
          have hv1 := jsize_pos v
          have hjfc : jsizeF ((k, v) :: fs) = jsize v + jsizeF fs + 1 := by simp [jsizeF]
          have e1 : printVal (pg + 1) ind (JValue.obj ((k, v) :: fs)) ++ rest =
              '\x7b' :: ('\n' :: (printFields pg (ind + 2) k v fs ++
                (('\n' :: indentChars ind) ++ ('\x7d' :: rest)))) := by
            simp [printVal, List.append_assoc]
          simp only [parseVal]
          rw [skipWs_append_ws w hw, e1, skipWs_cons_nonws _ _ (by decide)]
          have hsk : ∃ t, skipWs ('\n' :: (printFields pg (ind + 2) k v fs ++
              (('\n' :: indentChars ind) ++ ('\x7d' :: rest)))) = '"' :: t := by
            rw [skipWs_cons_ws _ _ (by decide)]
            exact skipWs_printFields pg (ind + 2) k v fs _ (by omega)
          obtain ⟨t, hct⟩ := hsk
          simp only [hct]
          split
          · next rest2 heq =>
            exact absurd (List.head_eq_of_cons_eq heq.symm).symm (by decide)
          · next hne =>
            have hi := ihF k v fs pg (ind + 2) ['\n'] ('\n' :: indentChars ind) rest
              (by decide) (allWs_cons_nl _ (allWs_indent ind)) hna.1 hna.2
              (by omega) (by omega)
            simp only [List.cons_append, List.nil_append] at hi ⊢
            rw [hi]
            rfl
    · -- parseItems
      intro x xs pfuel ind w wEnd rest hw hwE hnx hnxs hszp hszf
      have hx1 := jsize_pos x
      have hjlc : jsizeL (x :: xs) = jsize x + jsizeL xs + 1 := by simp [jsizeL]
      obtain ⟨pg, rfl⟩ : ∃ pg, pfuel = pg + 1 := ⟨pfuel - 1, by omega⟩
      cases xs with
      | nil =>
        have e1 : w ++ (printItems (pg + 1) ind x [] ++ (wEnd ++ (']' :: rest))) =
            (w ++ indentChars ind) ++ (printVal pg ind x ++ (wEnd ++ (']' :: rest))) := by
          simp [printItems, List.append_assoc]
        simp only [parseItems]
        rw [e1, ihV x pg ind (w ++ indentChars ind) (wEnd ++ (']' :: rest))
          (allWs_append _ _ hw (allWs_indent ind)) hnx (by omega) (by omega)]
        simp only [Option.bind_eq_bind, Option.some_bind]
        rw [skipWs_append_ws wEnd hwE, skipWs_cons_nonws _ _ (by decide)]
        rfl
      | cons y ys =>
        have hny : noNum y = true ∧ noNumL ys = true := by
          simpa [noNumL, Bool.and_eq_true] using hnxs
        have hy1 := jsize_pos y
        have hjlc2 : jsizeL (y :: ys) = jsize y + jsizeL ys + 1 := by simp [jsizeL]
        have e1 : w ++ (printItems (pg + 1) ind x (y :: ys) ++ (wEnd ++ (']' :: rest))) =
            (w ++ indentChars ind) ++ (printVal pg ind x ++
              (',' :: ('\n' :: (printItems pg ind y ys ++ (wEnd ++ (']' :: rest)))))) := by
          simp [printItems, List.append_assoc]
        simp only [parseItems]
        rw [e1, ihV x pg ind (w ++ indentChars ind) _
          (allWs_append _ _ hw (allWs_indent ind)) hnx (by omega) (by omega)]
        simp only [Option.bind_eq_bind, Option.some_bind]
        rw [skipWs_cons_nonws _ _ (by decide)]
        have hi := ihI y ys pg ind ['\n'] wEnd rest (by decide) hwE hny.1 hny.2
          (by omega) (by omega)
        simp only [List.cons_append, List.nil_append] at hi ⊢
        rw [hi]
        rfl
    · -- parseFields
      intro k v fs pfuel ind w wEnd rest hw hwE hnv hnfs hszp hszf
      have hv1 := jsize_pos v
      have hjfc : jsizeF ((k, v) :: fs) = jsize v + jsizeF fs + 1 := by simp [jsizeF]
      obtain ⟨pg, rfl⟩ : ∃ pg, pfuel = pg + 1 := ⟨pfuel - 1, by omega⟩
      cases fs with
      | nil =>
        have e1 : w ++ (printFields (pg + 1) ind k v [] ++ (wEnd ++ ('\x7d' :: rest))) =
            (w ++ indentChars ind) ++ ('"' :: (escStr k ++
              ('"' :: (':' :: (' ' :: (printVal pg ind v ++ (wEnd ++ ('\x7d' :: rest)))))))) := by
          simp [printFields, List.append_assoc]
        simp only [parseFields]
        rw [e1, skipWs_append_ws _ (allWs_append _ _ hw (allWs_indent ind)),
          skipWs_cons_nonws _ _ (by decide)]
        have hlen : k.data.length + 1 ≤ (escStr k ++
            ('"' :: (':' :: (' ' :: (printVal pg ind v ++
              (wEnd ++ ('\x7d' :: rest))))))).length + 1 := by
          have := escStr_len_ge k
          simp only [List.length_append, List.length_cons]
          omega
        simp only [parseStrAux_esc k _ _ hlen, Option.bind_eq_bind, Option.some_bind]
        rw [skipWs_cons_nonws _ _ (by decide)]
        have hv := ihV v pg ind [' '] (wEnd ++ ('\x7d' :: rest)) (by decide) hnv
          (by omega) (by omega)
        simp only [List.cons_append, List.nil_append] at hv ⊢
        rw [hv]
        simp only [Option.bind_eq_bind, Option.some_bind]
        rw [skipWs_append_ws wEnd hwE, skipWs_cons_nonws _ _ (by decide)]
        rfl
      | cons g gs =>
        obtain ⟨k2, v2⟩ := g
        have hng : noNum v2 = true ∧ noNumF gs = true := by
          simpa [noNumF, Bool.and_eq_true] using hnfs
        have hv21 := jsize_pos v2
        have hjfc2 : jsizeF ((k2, v2) :: gs) = jsize v2 + jsizeF gs + 1 := by simp [jsizeF]
        have e1 : w ++ (printFields (pg + 1) ind k v ((k2, v2) :: gs) ++
            (wEnd ++ ('\x7d' :: rest))) =
            (w ++ indentChars ind) ++ ('"' :: (escStr k ++
              ('"' :: (':' :: (' ' :: (printVal pg ind v ++
                (',' :: ('\n' :: (printFields pg ind k2 v2 gs ++
                  (wEnd ++ ('\x7d' :: rest))))))))))) := by
          simp [printFields, List.append_assoc]
        simp only [parseFields]
        rw [e1, skipWs_append_ws _ (allWs_append _ _ hw (allWs_indent ind)),
          skipWs_cons_nonws _ _ (by decide)]
        have hlen : k.data.length + 1 ≤ (escStr k ++
            ('"' :: (':' :: (' ' :: (printVal pg ind v ++
              (',' :: ('\n' :: (printFields pg ind k2 v2 gs ++
                (wEnd ++ ('\x7d' :: rest)))))))))).length + 1 := by
          have := escStr_len_ge k
          simp only [List.length_append, List.length_cons]
          omega
        simp only [parseStrAux_esc k _ _ hlen, Option.bind_eq_bind, Option.some_bind]
        rw [skipWs_cons_nonws _ _ (by decide)]
        have hv := ihV v pg ind [' ']
          (',' :: ('\n' :: (printFields pg ind k2 v2 gs ++ (wEnd ++ ('\x7d' :: rest)))))
          (by decide) hnv (by omega) (by omega)
        simp only [List.cons_append, List.nil_append] at hv ⊢
        rw [hv]
        simp only [Option.bind_eq_bind, Option.some_bind]
        rw [skipWs_cons_nonws _ _ (by decide)]
        have hi := ihF k2 v2 gs pg ind ['\n'] wEnd rest (by decide) hwE hng.1 hng.2
          (by omega) (by omega)
        simp only [List.cons_append, List.nil_append] at hi ⊢
        rw [hi]
        rfl

/-- The printed output is at least as long as the structural size (so the
parser fuel `length + 1` that `parseJson` uses always suffices). -/
theorem jsize_le_print (pfuel : Nat) :
    (∀ (v : JValue) (ind : Nat), noNum v = true → jsize v ≤ pfuel →
        jsize v ≤ (printVal pfuel ind v).length) ∧
    (∀ (x : JValue) (xs : List JValue) (ind : Nat),
        noNum x = true → noNumL xs = true → jsizeL (x :: xs) ≤ pfuel →
        jsizeL (x :: xs) ≤ (printItems pfuel ind x xs).length + 1) ∧
    (∀ (k : String) (v : JValue) (fs : List (String × JValue)) (ind : Nat),
        noNum v = true → noNumF fs = true → jsizeF ((k, v) :: fs) ≤ pfuel →
        jsizeF ((k, v) :: fs) ≤ (printFields pfuel ind k v fs).length + 1) := by
  induction pfuel with
  | zero =>
    refine ⟨?_, ?_, ?_⟩
    · intro v _ _ hsz; have := jsize_pos v; omega
    · intro x xs _ _ _ hsz
      have := jsize_pos x
      simp only [jsizeL] at hsz
      omega
    · intro k v fs _ _ _ hsz
      have := jsize_pos v
      simp only [jsizeF] at hsz
      omega
  | succ pf ih =>
    obtain ⟨ihV, ihI, ihF⟩ := ih
    refine ⟨?_, ?_, ?_⟩
    · intro v ind hn hsz
      cases v with
      | null => simp [printVal, jsize]
      | bool b => cases b <;> simp [printVal, jsize]
      | num n => simp [noNum] at hn
      | str s => simp [printVal, jsize]
      | arr xs =>
        cases xs with
        | nil => simp [printVal, jsize, jsizeL]
        | cons x xs =>
          have hns : noNum x = true ∧ noNumL xs = true := by
            simpa [noNum, noNumL, Bool.and_eq_true] using hn
          have hszl : jsizeL (x :: xs) ≤ pf := by
            simp only [jsize] at hsz; omega
          have h := ihI x xs (ind + 2) hns.1 hns.2 hszl
          simp only [jsize, printVal, List.length_cons, List.length_append,
            indentChars, List.length_replicate] at h ⊢
          omega
      | obj fs =>
        cases fs with
        | nil => simp [printVal, jsize, jsizeF]
        | cons g gs =>
          obtain ⟨k, v⟩ := g
          have hns : noNum v = true ∧ noNumF gs = true := by
            simpa [noNum, noNumF, Bool.and_eq_true] using hn
          have hszf : jsizeF ((k, v) :: gs) ≤ pf := by
            simp only [jsize] at hsz; omega
          have h := ihF k v gs (ind + 2) hns.1 hns.2 hszf
          simp only [jsize, printVal, List.length_cons, List.length_append,
            indentChars, List.length_replicate] at h ⊢
          omega
    · intro x xs ind hnx hnxs hsz
      cases xs with
      | nil =>
        have hszx : jsize x ≤ pf := by simp only [jsizeL] at hsz; omega
        have h := ihV x ind hnx hszx
        simp only [jsizeL, printItems, List.length_append, indentChars,
          List.length_replicate] at h ⊢
        omega
      | cons y ys =>
        have hns : noNum y = true ∧ noNumL ys = true := by
          simpa [noNumL, Bool.and_eq_true] using hnxs
        have hy1 := jsize_pos y
        have hszx : jsize x ≤ pf := by simp only [jsizeL] at hsz; omega
        have hszl : jsizeL (y :: ys) ≤ pf := by
          simp only [jsizeL] at hsz ⊢; omega
        have h1 := ihV x ind hnx hszx
        have h2 := ihI y ys ind hns.1 hns.2 hszl
        simp only [jsizeL, printItems, List.length_append, List.length_cons,
          indentChars, List.length_replicate] at h1 h2 ⊢
        omega
    · intro k v fs ind hnv hnfs hsz
      cases fs with
      | nil =>
        have hszv : jsize v ≤ pf := by simp only [jsizeF] at hsz; omega
        have h := ihV v ind hnv hszv
        simp only [jsizeF, printFields, List.length_append, List.length_cons,
          indentChars, List.length_replicate] at h ⊢
        omega
      | cons g gs =>
        obtain ⟨k2, v2⟩ := g
        have hns : noNum v2 = true ∧ noNumF gs = true := by
          simpa [noNumF, Bool.and_eq_true] using hnfs
        have hv21 := jsize_pos v2
        have hszv : jsize v ≤ pf := by simp only [jsizeF] at hsz; omega
        have hszf : jsizeF ((k2, v2) :: gs) ≤ pf := by
          simp only [jsizeF] at hsz ⊢; omega
        have h1 := ihV v ind hnv hszv
        have h2 := ihF k2 v2 gs ind hns.1 hns.2 hszf
        simp only [jsizeF, printFields, List.length_append, List.length_cons,
          indentChars, List.length_replicate] at h1 h2 ⊢
        omega

/-- `JSON.parse` inverts `JSON.stringify(·, null, 2)` on every number-free
value (the program's session and config data), for any sufficient printing
fuel. -/
theorem parseJson_stringifyJ (v : JValue) (fuel : Nat)
    (hn : noNum v = true) (hf : jsize v ≤ fuel) :
    parseJson (stringifyJ fuel v) = some v := by
  have hlen := (jsize_le_print fuel).1 v 0 hn hf
  have h := (parse_print_all ((printVal fuel 0 v).length + 1)).1 v fuel 0 [] []
    (by decide) hn (by omega) hf
  simp only [List.nil_append, List.append_nil] at h
  simp only [parseJson, stringifyJ]
  rw [h]
  rfl

/-! ## Session data

The session objects the CLI writes and reads (`record start` lines 681-689,
`record stop` lines 710-717, `end` lines 838-843, `replay` lines 776-815,
`push` lines 894-949).  All timestamps are `new Date().toISOString()`
strings, so session JSON carries no numeric leaf. -/

/-- One entry of `sessionData.commands` (`replay` lines 791-799 reads
`cmd.command` and `cmd.output`). -/
structure CommandEntry where
  command : String
  output : Option String

/-- One entry of `sessionData.diffs` (`replay` lines 801-807 reads
`diff.filePath` and `diff.diff`). -/
structure DiffEntry where
  filePath : String
  diff : String

/-- `sessionData.git` as `push` builds it (lines 906-914): the trimmed
outputs of the three `git rev-parse` / `git remote` commands. -/
structure GitInfo where
  branch : String
  commit : String
  remote : String

/-- `sessionData.metadata` as `push` builds it (lines 898-904). -/
structure SessionMeta where
  createdAt : String
  updatedAt : String
  status : String

/-- A session value: the fields the program ever writes or reads on
`sessionData`.  Optional fields model properties that may be absent from
the object (`JSON.stringify` omits absent properties). -/
structure Session where
  id : String
  startTime : String
  endTime : Option String
  isRecording : Bool
  notes : Option String
  commands : List CommandEntry
  diffs : Option (List DiffEntry)
  resolution : Option String
  metadata : Option SessionMeta
  git : Option GitInfo

/-- A present property contributes its field; an absent one contributes
nothing to the stringified object. -/
def optField (k : String) : Option JValue → List (String × JValue)
  | none => []
  | some v => [(k, v)]

/-- The JSON object of one command entry. -/
def encCommand (c : CommandEntry) : JValue :=
  JValue.obj ([("command", JValue.str c.command)] ++
    optField "output" (c.output.map JValue.str))

/-- The JSON object of one diff entry. -/
def encDiff (d : DiffEntry) : JValue :=
  JValue.obj [("filePath", JValue.str d.filePath), ("diff", JValue.str d.diff)]

/-- The JSON object of the git context. -/
def encGit (g : GitInfo) : JValue :=
  JValue.obj [("branch", JValue.str g.branch), ("commit", JValue.str g.commit),
    ("remote", JValue.str g.remote)]

/-- The JSON object of the metadata block. -/
def encMeta (m : SessionMeta) : JValue :=
  JValue.obj [("createdAt", JValue.str m.createdAt),
    ("updatedAt", JValue.str m.updatedAt), ("status", JValue.str m.status)]

/-- The JSON object of a session, as handed to `JSON.stringify`. -/
def encodeSession (s : Session) : JValue :=
  JValue.obj (
    [("id", JValue.str s.id), ("startTime", JValue.str s.startTime)] ++
    optField "endTime" (s.endTime.map JValue.str) ++
    [("commands", JValue.arr (s.commands.map encCommand)),
     ("isRecording", JValue.bool s.isRecording)] ++
    optField "notes" (s.notes.map JValue.str) ++
    optField "diffs" ((s.diffs).map (fun ds => JValue.arr (ds.map encDiff))) ++
    optField "resolution" (s.resolution.map JValue.str) ++
    optField "metadata" (s.metadata.map encMeta) ++
    optField "git" (s.git.map encGit))

theorem noNumF_append (a b : List (String × JValue)) :
    noNumF (a ++ b) = (noNumF a && noNumF b) := by
  induction a with
  | nil => simp [noNumF]
  | cons g gs ih =>
    obtain ⟨k, v⟩ := g
    simp [noNumF, ih, Bool.and_assoc]

theorem noNum_encCommand (c : CommandEntry) : noNum (encCommand c) = true := by
  cases h : c.output <;> simp [encCommand, optField, h, noNum, noNumF]

theorem noNumL_map_encCommand (cs : List CommandEntry) :
    noNumL (cs.map encCommand) = true := by
  induction cs with
  | nil => simp [noNumL]
  | cons c cs ih => simp [noNumL, noNum_encCommand, ih]

theorem noNumL_map_encDiff (ds : List DiffEntry) :
    noNumL (ds.map encDiff) = true := by
  induction ds with
  | nil => simp [noNumL]
  | cons d ds ih => simp [noNumL, encDiff, noNum, noNumF, ih]

theorem noNumF_optField_str (k : String) (o : Option String) :
    noNumF (optField k (o.map JValue.str)) = true := by
  cases o <;> simp [optField, noNumF, noNum]

/-- A session's JSON object is number-free. -/
theorem noNum_encodeSession (s : Session) : noNum (encodeSession s) = true := by
  have h4 : noNumF (optField "diffs"
      ((s.diffs).map (fun ds => JValue.arr (ds.map encDiff)))) = true := by
    cases s.diffs <;> simp [optField, noNumF, noNum, noNumL_map_encDiff]
  have h5 : noNumF (optField "metadata" (s.metadata.map encMeta)) = true := by
    cases s.metadata <;> simp [optField, noNumF, noNum, encMeta]
  have h6 : noNumF (optField "git" (s.git.map encGit)) = true := by
    cases s.git <;> simp [optField, noNumF, noNum, encGit]
  simp [encodeSession, noNum, noNumF_append, noNumF, h4, h5, h6,
    noNumF_optField_str "endTime" s.endTime, noNumF_optField_str "notes" s.notes,
    noNumF_optField_str "resolution" s.resolution,
    noNumL_map_encCommand s.commands]

/-- `fs.writeFileSync(p, JSON.stringify(sessionData, null, 2))`: the save
every write site performs (lines 689, 717, 760, 843). -/
def saveSession (fs : FS) (p : String) (s : Session) : FS :=
  writeFS fs p (stringifyJ (jsize (encodeSession s)) (encodeSession s))

/-- `JSON.parse(fs.readFileSync(p, 'utf-8'))`: the load every read site
performs (lines 709, 776, 836); `none` models a throw (missing file or
parse error). -/
def loadSession (fs : FS) (p : String) : Option JValue :=
  (readFS fs p).bind (fun c => parseJson c)

/-! ## CLI commands

The command actions, as state transformers over the flat filesystem.  The
active session id is the value `getActiveSessionId()` returns
(`config.activeSession`, lines 45-52): `none` models `null`/`undefined`;
`some ""` is falsy in the `if (!sessionId)` guards, like `null`. -/

/-- JavaScript truthiness of an optional string (absent and `""` falsy). -/
def jsStrTruthy : Option String → Bool
  | none => false
  | some s => s ≠ ""

/-- `a || b` on optional strings (`""` falls through, like `undefined`). -/
def jsOrOpt2 : Option String → Option String → Option String
  | some s, b => if s = "" then b else some s
  | none, b => b

/-- `o || d` with a string default. -/
def jsOrStr : Option String → String → String
  | some s, d => if s = "" then d else s
  | none, d => d

/-- How a command run ends. -/
inductive Outcome where
  | completed (msg : String)
  | errored (msg : String)
  | crashed (exn : String)
deriving DecidableEq

/-- A session-file access. -/
inductive FileOp where
  | read (path : String)
  | write (path : String) (content : String)
deriving DecidableEq

/-- A finished command run: its outcome, the filesystem afterwards, and the
session-file operations it performed. -/
structure CmdRun where
  outcome : Outcome
  files : FS
  fileOps : List FileOp
deriving DecidableEq

/-- The uncaught exception the undefined identifier raises: `getSessionPath`
is called at lines 357, 681, 703, 746 and 833 but defined nowhere in the
program. -/
def referenceErrorGSP : String := "ReferenceError: getSessionPath is not defined"

/-- `trail checkout <session_id>` (lines 355-367): its first statement is
`getSessionPath(sessionId)`, so it throws before touching any file. -/
def checkoutCmd (st : FS) (sessionId : String) : CmdRun :=
  ⟨Outcome.crashed referenceErrorGSP, st, []⟩

/-- `trail record start` (lines 672-692): guard on the active session id,
then `getSessionPath(sessionId)` throws. -/
def recordStartCmd (st : FS) (active : Option String) : CmdRun :=
  if jsStrTruthy active then ⟨Outcome.crashed referenceErrorGSP, st, []⟩
  else ⟨Outcome.errored "No active session. Start one with trail start.", st, []⟩

/-- `trail record stop` (lines 694-721): guard on the active session id,
then `getSessionPath(sessionId)` at line 703 throws — before the
`fs.existsSync` check, the read, and the `isRecording` update at 712-714. -/
def recordStopCmd (st : FS) (active : Option String) : CmdRun :=
  if jsStrTruthy active then ⟨Outcome.crashed referenceErrorGSP, st, []⟩
  else ⟨Outcome.errored "No active session. Start one with trail start.", st, []⟩

/-- `trail end` (lines 823-850): guard, then `getSessionPath(sessionId)` at
line 833 throws. -/
def endCmd (st : FS) (active : Option String) : CmdRun :=
  if jsStrTruthy active then ⟨Outcome.crashed referenceErrorGSP, st, []⟩
  else ⟨Outcome.errored "No active session to end. Start one with trail start.",
    st, []⟩

/-- `trail replay [sessionId]` (lines 730-821):
`targetSessionId = sessionId || getActiveSessionId()`, then
`getSessionPath(targetSessionId)` at line 746 throws. -/
def replayCmd (st : FS) (arg active : Option String) : CmdRun :=
  if jsStrTruthy (jsOrOpt2 arg active) then
    ⟨Outcome.crashed referenceErrorGSP, st, []⟩
  else
    ⟨Outcome.errored "No session ID provided and no active session found.", st, []⟩

/-- `trail resolve -m <message>` (lines 367-380): guard on the active
session id, then `console.log` a confirmation built from
`options.message || 'Fixed the issue'` — no file is read or written, so
nothing is persisted. -/
def resolveCmd (st : FS) (active optMessage : Option String) : CmdRun :=
  if jsStrTruthy active then
    ⟨Outcome.completed ("Marked session as resolved: " ++
        jsOrStr optMessage "Fixed the issue"), st, []⟩
  else ⟨Outcome.errored "No active session. Start one with trail start.", st, []⟩

/-! ## `trail push` (lines 867-949)

Unlike the five commands above, `push` builds the session path itself
(`path.join(SESSIONS_DIR, sessionId + '.json')`, line 881) and so runs. -/

/-- `SESSIONS_DIR` (line 36): `~/.trail/sessions` under the home directory. -/
def sessionsDir : String := "/home/user/.trail/sessions"

/-- `path.join(SESSIONS_DIR, sessionId + '.json')` (line 881). -/
def sessionPathOf (sid : String) : String := sessionsDir ++ "/" ++ sid ++ ".json"

/-- A network request push can issue. -/
inductive NetCall where
  | postSessions (body : JValue)

/-- The environment `push` reads besides the filesystem: the token sources,
the clock, and the git context (`some` iff all three `git` commands of
lines 908-912 succeed; the fields carry their `.trim()`-ed outputs). -/
structure PushEnv where
  envToken : Option String
  cfgToken : Option String
  now : String
  git : Option GitInfo

/-- A finished push run: its outcome and the requests it issued. -/
structure PushRun where
  outcome : Outcome
  net : List NetCall

/-- `!sessionData.steps || sessionData.steps.length === 0` (line 895): the
gate push actually applies — it never inspects `commands`. -/
def stepsMissing (sessionData : JValue) : Bool :=
  match jsGet sessionData "steps" with
  | none => true
  | some v => !jsTruthy v || jsLenIsZero v

/-- The metadata object push attaches when `sessionData.metadata` is falsy
(lines 898-904). -/
def metaObjOf (now : String) : JValue :=
  JValue.obj [("createdAt", JValue.str now), ("updatedAt", JValue.str now),
    ("status", JValue.str "active")]

/-- The message of the `throw` at line 896. -/
def noStepsMsg : String := "Session has no recorded steps. Use trail record start first."

/-- `trail push` (lines 867-949).  Error outcomes carry the thrown
message the `catch` at 936-948 reports; a parse failure at line 894 is
summarised as its own message.  The `POST /api/sessions` request (lines
916-925) is recorded in the net trace. -/
def pushCmd (env : PushEnv) (files : FS) (active : Option String) : PushRun :=
  if jsStrTruthy active then
    let sid := active.getD ""
    match readFS files (sessionPathOf sid) with
    | none => ⟨Outcome.errored "Session data not found. Please start a new session.", []⟩
    | some content =>
      if jsStrTruthy (jsOrOpt2 env.envToken env.cfgToken) then
        match parseJson content with
        | none => ⟨Outcome.errored "JSON.parse failed on the session file.", []⟩
        | some sessionData =>
          if stepsMissing sessionData then ⟨Outcome.errored noStepsMsg, []⟩
          else
            let sd1 :=
              match jsGet sessionData "metadata" with
              | some m => if jsTruthy m then sessionData
                  else setFieldJ sessionData "metadata" (metaObjOf env.now)
              | none => setFieldJ sessionData "metadata" (metaObjOf env.now)
            let sd2 :=
              match env.git with
              | some g => setFieldJ sd1 "git" (encGit g)
              | none => sd1
            ⟨Outcome.completed "Session pushed successfully!", [NetCall.postSessions sd2]⟩
      else ⟨Outcome.errored "TRAIL_TOKEN environment variable is not set", []⟩
  else ⟨Outcome.errored "No active session. Start a new session with trail start", []⟩

/-! ## `detectErrors` (lines 105-234) -/

/-- `parseInt(s, 10)`: skip leading whitespace, optional sign, then a
leading digit run; `none` models `NaN`. -/
def digitsPrefixVal (cs : List Char) : Option Nat :=
  let ds := cs.takeWhile Char.isDigit
  if ds.length = 0 then none else some (parseDigitsAcc 0 ds).1

/-- JavaScript `parseInt(s, 10)`. -/
def jsParseInt (s : String) : Option Int :=
  match s.data.dropWhile Char.isWhitespace with
  | '-' :: rest => (digitsPrefixVal rest).map (fun n => -(n : Int))
  | '+' :: rest => (digitsPrefixVal rest).map (fun n => (n : Int))
  | cs => (digitsPrefixVal cs).map (fun n => (n : Int))

/-- `o || 1` on a JavaScript number: `NaN` (`none`) and `0` give `1`. -/
def jsOrInt1 : Option Int → Int
  | some n => if n = 0 then 1 else n
  | none => 1

/-- `o || null` on an optional string (`""` is falsy and becomes `null`). -/
def jsOrNullStr : Option String → Option String
  | some s => if s = "" then none else some s
  | none => none

/-- Keep a string option only when it is truthy. -/
def truthyOpt : Option String → Option String
  | some s => if s = "" then none else some s
  | none => none

/-- `a || b` keeping only a truthy result (for `match[i] || match[j]`). -/
def strOrElse (a b : Option String) : Option String :=
  match truthyOpt a with
  | some s => some s
  | none => truthyOpt b

/-- `list[i]` for a JavaScript number index: `undefined` for `NaN`,
negative, or out-of-range indices. -/
def listGetInt (l : List String) (i : Option Int) : Option String :=
  match i with
  | some (Int.ofNat n) => l.get? n
  | _ => none

/-- An error record as `createError` (lines 108-119) builds it
(`toString` is derived from the other fields and not carried). -/
structure ErrorRecord where
  message : String
  filePath : String
  line : Int
  column : Int
  source : String
  sourceCode : Option String
deriving DecidableEq

/-- `createError(message, details)` (lines 108-119): trims the message,
relativises `details.filePath || filePath`, defaults falsy line/column to
`1` and a falsy source to `'trail-cli'`; `relp` stands for
`path.relative(process.cwd(), ·)`. -/
def createError (relp : String → String) (targetPath message : String)
    (dFilePath : Option String) (dLine dColumn : Option Int)
    (dSource dSourceCode : Option String) : ErrorRecord :=
  { message := trimStr message
    filePath := relp (jsOrStr dFilePath targetPath)
    line := jsOrInt1 dLine
    column := jsOrInt1 dColumn
    source := jsOrStr dSource "trail-cli"
    sourceCode := jsOrNullStr dSourceCode }

/-- One message of the parsed `npx eslint --format json` output. -/
structure EslintMessage where
  severity : Nat
  message : String
  line : Int
  column : Int
  ruleId : Option String

/-- One result of the parsed eslint output. -/
structure EslintResult where
  filePath : String
  messages : List EslintMessage

/-- The records of the eslint branch (lines 135-148): for each result, the
severity-2 messages, with the source line (if the file exists) trimmed as
`sourceCode`. -/
def eslintErrors (relp : String → String) (target : String) (files : FS)
    (results : List EslintResult) : List ErrorRecord :=
  (results.map (fun result =>
    let fileContent : List String :=
      match readFS files result.filePath with
      | some c => splitOnStr c "\n"
      | none => []
    (result.messages.filter (fun m => m.severity == 2)).map (fun m =>
      createError relp target m.message (some result.filePath) (some m.line)
        (some m.column) (some ("eslint:" ++ jsOrStr m.ruleId "unknown"))
        ((listGetInt fileContent (some (m.line - 1))).map trimStr)))).flatten

/-- The strategies of the pipeline, in their fixed order. -/
inductive Strategy where
  | lint
  | syntaxCheck
deriving DecidableEq

/-- Regex `\s`. -/
def regexWs (c : Char) : Bool := wsChar c || c.toNat = 12 || c.toNat = 11

/-- The apostrophe character. -/
def quoteChar : Char := Char.ofNat 39

/-- For pattern 1, `[\s\S]*?\n([^\n]+)`: the text after the first newline
that is followed by a non-newline character, up to the next newline. -/
def findNlThenNonNl : List Char → Option (List Char)
  | [] => none
  | c :: rest =>
    if c = '\n' then
      match rest with
      | [] => none
      | d :: _ =>
        if d = '\n' then findNlThenNonNl rest
        else some (rest.takeWhile (fun x => x != '\n'))
    else findNlThenNonNl rest

/-- Pattern 1, `/^([^:\n]+?):(\d+):(\d+)[\s\S]*?\n([^\n]+)/` (line 185):
a nonempty colon- and newline-free prefix, a colon, a digit run, a colon,
a digit run, then lazily up to a newline followed by a nonempty line.
Groups in order. -/
def matchP1 (text : String) : Option (String × String × String × String) :=
  let cs := text.data
  let pre := cs.takeWhile (fun c => (c != ':') && (c != '\n'))
  if pre.length = 0 then none
  else
    match cs.drop pre.length with
    | ':' :: rest1 =>
      let d1 := rest1.takeWhile Char.isDigit
      if d1.length = 0 then none
      else
        match rest1.drop d1.length with
        | ':' :: rest2 =>
          let d2 := rest2.takeWhile Char.isDigit
          if d2.length = 0 then none
          else
            match findNlThenNonNl (rest2.drop d2.length) with
            | some msg =>
              some (String.mk pre, String.mk d1, String.mk d2, String.mk msg)
            | none => none
        | _ => none
    | _ => none

/-- Pattern 2, `/^([^:]+):\s*([\s\S]*)(?:\n\s*at [^\n]+\s\(([^:]+):(\d+):(\d+)\))?/`
(line 186): a nonempty colon-free prefix (newlines allowed), a colon,
whitespace, then — the greedy `[\s\S]*` consuming everything and the
optional group matching empty — the whole remainder as group 2; groups
3-5 never capture. -/
def matchP2 (text : String) : Option (String × String) :=
  let cs := text.data
  let pre := cs.takeWhile (fun c => c != ':')
  if pre.length = 0 then none
  else
    match cs.drop pre.length with
    | ':' :: rest => some (String.mk pre, String.mk (rest.dropWhile regexWs))
    | _ => none

/-- Pattern 3, `/^([^:]+):\s*([^\n]+)(?:...)?/` (line 187): like pattern 2
with a nonempty single-line message.  Dead code: the cascade consults it
only after pattern 2 failed, and whenever pattern 2 fails so does pattern 3
(`matchP3_none_of_matchP2_none` below), so its group-3-5 arm and `\s*`
give-back are not modelled. -/
def matchP3 (text : String) : Option (String × String) :=
  let cs := text.data
  let pre := cs.takeWhile (fun c => c != ':')
  if pre.length = 0 then none
  else
    match cs.drop pre.length with
    | ':' :: rest =>
      match (rest.dropWhile regexWs).takeWhile (fun c => c != '\n') with
      | [] => none
      | msg => some (String.mk pre, String.mk msg)
    | _ => none

/-- Case-insensitive prefix test. -/
def ciPrefix : List Char → List Char → Bool
  | [], _ => true
  | _ :: _, [] => false
  | a :: as, b :: bs => (a.toLower == b.toLower) && ciPrefix as bs

/-- The searched-for text of pattern 4, `Cannot find module '`. -/
def cfmNeedle : List Char := "Cannot find module ".data ++ [quoteChar]

/-- Try pattern 4 at the start of the text: the needle (case-insensitive),
at least one non-quote character, and the closing quote; the capture keeps
the original casing. -/
def matchCFMAt (cs : List Char) : Option (List Char) :=
  if ciPrefix cfmNeedle cs then
    let after := cs.drop cfmNeedle.length
    let inner := after.takeWhile (fun c => c != quoteChar)
    if inner.length = 0 then none
    else
      match after.drop inner.length with
      | c :: _ =>
        if c = quoteChar then
          some (cs.take (cfmNeedle.length + inner.length + 1))
        else none
      | [] => none
  else none

/-- Search pattern 4 at every position. -/
def searchCFM : List Char → Option (List Char)
  | [] => none
  | c :: cs =>
    match matchCFMAt (c :: cs) with
    | some g => some g
    | none => searchCFM cs

/-- Pattern 4, `/(?:Error: )?(Cannot find module '[^']+')/i` (line 188):
an unanchored case-insensitive search; the optional `Error: ` prefix is
outside the capture and changes no observable field. -/
def matchP4 (text : String) : Option String :=
  (searchCFM text.data).map String.mk

/-- The capture groups `match[1]`..`match[5]` of the matched pattern. -/
structure MatchGroups where
  g1 : Option String
  g2 : Option String
  g3 : Option String
  g4 : Option String
  g5 : Option String

/-- The `errorDetails` object (lines 194-199 and the `sourceCode` attempt
at 202-208): `line`/`column` are `parseInt` results, `none` for `NaN`. -/
structure SynDetails where
  message : String
  filePath : String
  line : Option Int
  column : Option Int
  sourceCode : Option String

/-- Lines 194-199: the fixed-index extraction
`message: match[2] || match[1]`, `filePath: match[3] || filePath`,
`line: parseInt(match[4] || match[2] || 1, 10)`,
`column: parseInt(match[5] || match[3] || 1, 10)` — the same indices for
every pattern, whatever its groups mean. -/
def detailsOf (m : MatchGroups) (filePath : String) : SynDetails :=
  { message := (strOrElse m.g2 m.g1).getD ""
    filePath := jsOrStr m.g3 filePath
    line :=
      match strOrElse m.g4 m.g2 with
      | some s => jsParseInt s
      | none => some 1
    column :=
      match strOrElse m.g5 m.g3 with
      | some s => jsParseInt s
      | none => some 1
    sourceCode := none }

/-- The pattern cascade (lines 190-213): the first matching pattern, in
the fixed order 1-4, yields the details. -/
def matchPatterns (errorOutput filePath : String) : Option SynDetails :=
  match matchP1 errorOutput with
  | some (g1, g2, g3, g4) =>
    some (detailsOf ⟨some g1, some g2, some g3, some g4, none⟩ filePath)
  | none =>
    match matchP2 errorOutput with
    | some (g1, g2) => some (detailsOf ⟨some g1, some g2, none, none, none⟩ filePath)
    | none =>
      match matchP3 errorOutput with
      | some (g1, g2) => some (detailsOf ⟨some g1, some g2, none, none, none⟩ filePath)
      | none =>
        match matchP4 errorOutput with
        | some g1 => some (detailsOf ⟨some g1, none, none, none, none⟩ filePath)
        | none => none

/-- Lines 202-208: try to read `errorDetails.filePath` and attach the
trimmed source line when that line exists and is truthy. -/
def syntaxAttempt (files : FS) (d : SynDetails) : SynDetails :=
  match readFS files d.filePath with
  | none => d
  | some content =>
    match listGetInt (splitOnStr content "\n") (d.line.map (fun n => n - 1)) with
    | some s => if s = "" then d else { d with sourceCode := some (trimStr s) }
    | none => d

/-- The environment `detectErrors` consumes: `relp` stands for
`path.relative(process.cwd(), ·)`; `eslintResults` is the parsed output of
`npx eslint --format json` (`none` when the `execSync` at 126 or the
`JSON.parse` at 131 throws); `nodeOk` tells whether `node -c` (line 165)
exited cleanly, and `nodeErrOutput` is `(e.stderr || e.message || '')`
when it did not; `files` backs the `fs.readFileSync` calls. -/
structure DetectEnv where
  relp : String → String
  eslintResults : Option (List EslintResult)
  nodeOk : Bool
  nodeErrOutput : String
  files : FS

/-- The `node -c` arm of `detectErrors` (lines 164-218), reached when the
eslint arm produced nothing: success or empty error text yield `[]`; else
the first matching pattern builds the single `node-syntax` record (after
the source-line attempt), and with no match the first output line becomes a
`node-runtime` record. -/
def nodeBranch (env : DetectEnv) (filePath : String) :
    List ErrorRecord × List Strategy :=
  if env.nodeOk then ([], [Strategy.lint, Strategy.syntaxCheck])
  else if env.nodeErrOutput = "" then ([], [Strategy.lint, Strategy.syntaxCheck])
  else
    match matchPatterns env.nodeErrOutput filePath with
    | some d =>
      let d2 := syntaxAttempt env.files d
      ([createError env.relp filePath d2.message (some d2.filePath) d2.line
          d2.column (some "node-syntax") d2.sourceCode],
        [Strategy.lint, Strategy.syntaxCheck])
    | none =>
      ([createError env.relp filePath (firstLine env.nodeErrOutput)
          (some filePath) none none (some "node-runtime") none],
        [Strategy.lint, Strategy.syntaxCheck])

/-- `detectErrors(filePath)` (lines 105-234): the record list it returns
and the strategies it invoked.  The eslint arm (lines 125-158) wins iff
the parsed results are nonempty, the first result has messages, and the
severity-2 records are nonempty; every other path falls through to
`node -c`. -/
def detectErrors (env : DetectEnv) (filePath : String) :
    List ErrorRecord × List Strategy :=
  match env.eslintResults with
  | none => nodeBranch env filePath
  | some results =>
    match results with
    | [] => nodeBranch env filePath
    | r0 :: _ =>
      if r0.messages.length = 0 then nodeBranch env filePath
      else
        let errors := eslintErrors env.relp filePath env.files results
        if errors.isEmpty then nodeBranch env filePath
        else (errors, [Strategy.lint])

/-! ## The lookup flow (lines 236-285) -/

/-- An entry of `allErrors` in `lookup`: the detection entries are spread
as `{...e, file}` and the fallback builds this shape directly (lines
270-276); only the fields the lookup request reads are kept. -/
structure LookupRecord where
  message : String
  file : String
  line : Int
  column : Int
  source : String
deriving DecidableEq

/-- Lines 266-285: `detected` is the concatenation of the per-file
`detectErrors` results, each paired with its file.  With no detections
and a truthy `options.error`, exactly one `user-provided` record with
`line: 0, column: 0` and `file: options.file || 'unknown'` is
synthesized; with no detections and no error option the flow returns
early (`none`). -/
def lookupAllErrors (detected : List (ErrorRecord × String))
    (optError optFile : Option String) : Option (List LookupRecord) :=
  let base := detected.map (fun e =>
    LookupRecord.mk e.1.message e.2 e.1.line e.1.column e.1.source)
  if base.length = 0 then
    if jsStrTruthy optError then
      some [LookupRecord.mk (optError.getD "") (jsOrStr optFile "unknown")
        0 0 "user-provided"]
    else none
  else some base

/-- Whenever pattern 2 fails, pattern 3 fails: both need the same nonempty
colon-free prefix followed by a colon, and pattern 3 needs more.  So the
pattern-3 arm of the cascade is dead code. -/
theorem matchP3_none_of_matchP2_none (text : String)
    (h : matchP2 text = none) : matchP3 text = none := by
  unfold matchP2 at h
  unfold matchP3
  by_cases hp : (text.data.takeWhile (fun c => c != ':')).length = 0
  · simp only [hp, if_true]
  · simp only [hp, if_false] at h ⊢
    revert h
    cases text.data.drop (text.data.takeWhile (fun c => c != ':')).length with
    | nil => intro h; rfl
    | cons c rest =>
      intro h
      by_cases hc : c = ':'
      · subst hc; simp at h
      · have : (c :: rest).head? = some c := rfl
        cases hcc : c <;> simp_all

/-! ## Claim theorems -/

/-- The session written by `record start` for id `abc123` (old save). -/
def c1OldSession : Session :=
  ⟨"abc123", "2023-12-31T23:59:59.000Z", none, true, none, [], none, none, none, none⟩

/-- The session a new `record start` would write (new save). -/
def c1NewSession : Session :=
  ⟨"abc123", "2024-01-01T00:00:00.000Z", none, true, none, [], none, none, none, none⟩

/-- The session file path of id `abc123`. -/
def c1Path : String := sessionPathOf "abc123"

/-- The old on-disk content: the complete stringified session (the fuel 9
is its structural size `jsize`, so the output is the full stringification,
as `c1_contents_parse` below checks). -/
def c1Old : String := stringifyJ 9 (encodeSession c1OldSession)

/-- The new content being written. -/
def c1New : String := stringifyJ 9 (encodeSession c1NewSession)

/-- Both contents are complete: they parse back to their sessions. -/
theorem c1_contents_parse :
    parseJson c1Old = some (encodeSession c1OldSession) ∧
    parseJson c1New = some (encodeSession c1NewSession) :=
  ⟨rfl, rfl⟩

/-- The filesystem before the save. -/
def c1FS : FS := [(c1Path, c1Old)]

/-- C1: the claimed write-to-temporary-then-rename atomic replace does not
hold — the saves at lines 689, 717 and 843 are plain in-place
`fs.writeFileSync` calls, and interrupting one mid-write leaves the session
file holding a content that is neither the old nor the new complete
content and that `JSON.parse` rejects. -/
theorem save_not_atomic :
    ∃ fsMid ∈ writeFileSyncTrace c1FS c1Path c1New, ∃ c,
      readFS fsMid c1Path = some c ∧ c ≠ c1Old ∧ c ≠ c1New ∧
      parseJson c = none := by
  refine ⟨writeFS c1FS c1Path (String.mk (c1New.data.take 1)),
    List.mem_cons_of_mem _ (List.mem_map.2 ⟨1, List.mem_range.2 (by decide), rfl⟩),
    String.mk (c1New.data.take 1), readFS_writeFS_self _ _ _, by decide, by decide,
    rfl⟩

/-- C2: with a session id in play (a checkout argument, an active session,
or a replay target), `checkout`, `record start`, `record stop`, `end` and
`replay` each reach the undefined `getSessionPath` and crash with an
uncaught ReferenceError, performing no session-file read or write and
leaving the filesystem untouched. -/
theorem commands_crash (st : FS) (sid : String) (active : Option String)
    (h : jsStrTruthy active = true) :
    checkoutCmd st sid = ⟨Outcome.crashed referenceErrorGSP, st, []⟩ ∧
    recordStartCmd st active = ⟨Outcome.crashed referenceErrorGSP, st, []⟩ ∧
    recordStopCmd st active = ⟨Outcome.crashed referenceErrorGSP, st, []⟩ ∧
    endCmd st active = ⟨Outcome.crashed referenceErrorGSP, st, []⟩ ∧
    replayCmd st (some sid) active = ⟨Outcome.crashed referenceErrorGSP, st, []⟩ ∧
    replayCmd st none active = ⟨Outcome.crashed referenceErrorGSP, st, []⟩ := by
  refine ⟨rfl, ?_, ?_, ?_, ?_, ?_⟩
  · simp [recordStartCmd, h]
  · simp [recordStopCmd, h]
  · simp [endCmd, h]
  · by_cases hs : sid = ""
    · simp [replayCmd, jsOrOpt2, hs, h]
    · simp [replayCmd, jsOrOpt2, hs, jsStrTruthy]
  · simp [replayCmd, jsOrOpt2, h]

/-- C2 witness: a concrete store and active session id. -/
theorem commands_crash_witness :
    checkoutCmd [("s", "x")] "abc123" =
      ⟨Outcome.crashed referenceErrorGSP, [("s", "x")], []⟩ :=
  (commands_crash [("s", "x")] "abc123" (some "abc123") (by decide)).1

/-- C8: the claimed stop-twice behaviour (first stop persists
`isRecording=false`, second is an informational no-op) does not hold —
with an active session both invocations of `record stop` crash at line 703
on the undefined `getSessionPath`, before the existence check, the read and
the `isRecording` update, and the session file is never modified. -/
theorem recordStop_crashes (st : FS) (active : Option String)
    (h : jsStrTruthy active = true) :
    recordStopCmd st active = ⟨Outcome.crashed referenceErrorGSP, st, []⟩ ∧
    recordStopCmd (recordStopCmd st active).files active =
      ⟨Outcome.crashed referenceErrorGSP, st, []⟩ := by
  have h1 : recordStopCmd st active = ⟨Outcome.crashed referenceErrorGSP, st, []⟩ := by
    simp [recordStopCmd, h]
  exact ⟨h1, by rw [h1]; simpa [recordStopCmd, h] using h1⟩

/-- C8 witness: two stops on a concrete store with an active session. -/
theorem recordStop_crashes_witness :
    recordStopCmd [("s", "x")] (some "abc123") =
      ⟨Outcome.crashed referenceErrorGSP, [("s", "x")], []⟩ ∧
    recordStopCmd (recordStopCmd [("s", "x")] (some "abc123")).files
        (some "abc123") =
      ⟨Outcome.crashed referenceErrorGSP, [("s", "x")], []⟩ :=
  recordStop_crashes [("s", "x")] (some "abc123") (by decide)

/-- C9: the claimed persistence of the resolution does not hold — with an
active session (its file present or not), `resolve` only prints a
confirmation built from `options.message || 'Fixed the issue'`: it
performs no file operation, leaves the filesystem unchanged, and no
`resolution` field is ever written. -/
theorem resolve_not_persisted (st : FS) (active optMessage : Option String)
    (h : jsStrTruthy active = true) :
    resolveCmd st active optMessage =
      ⟨Outcome.completed ("Marked session as resolved: " ++
          jsOrStr optMessage "Fixed the issue"), st, []⟩ := by
  simp [resolveCmd, h]

/-- C9 witness: a concrete store whose session file exists. -/
theorem resolve_not_persisted_witness :
    resolveCmd [(c1Path, c1Old)] (some "abc123") (some "root cause fixed") =
      ⟨Outcome.completed "Marked session as resolved: root cause fixed",
        [(c1Path, c1Old)], []⟩ :=
  resolve_not_persisted [(c1Path, c1Old)] (some "abc123")
    (some "root cause fixed") (by decide)

/-- C10: saving a session value (stringify and write, as at line 689) and
then loading the same path (read and parse, as at line 776) returns
exactly the saved session object. -/
theorem save_load_roundtrip (fs : FS) (p : String) (s : Session) :
    loadSession (saveSession fs p s) p = some (encodeSession s) := by
  unfold loadSession saveSession
  rw [readFS_writeFS_self]
  exact parseJson_stringifyJ _ _ (noNum_encodeSession s) le_rfl

/-- C3: when the eslint arm yields at least one severity-2 record,
`detectErrors` returns exactly those records and the `node -c` syntax
check is never invoked. -/
theorem lint_short_circuit (env : DetectEnv) (fp : String)
    (r0 : EslintResult) (rs : List EslintResult)
    (h1 : env.eslintResults = some (r0 :: rs))
    (h2 : r0.messages.length > 0)
    (h3 : eslintErrors env.relp fp env.files (r0 :: rs) ≠ []) :
    detectErrors env fp =
      (eslintErrors env.relp fp env.files (r0 :: rs), [Strategy.lint]) ∧
    Strategy.syntaxCheck ∉ (detectErrors env fp).2 := by
  have hne : ¬ r0.messages.length = 0 := by omega
  have he : detectErrors env fp =
      (eslintErrors env.relp fp env.files (r0 :: rs), [Strategy.lint]) := by
    unfold detectErrors
    rw [h1]
    simp [hne, List.isEmpty_iff, h3]
  exact ⟨he, by rw [he]; simp⟩

/-- An eslint message for the C3 witness. -/
def c3Msg : EslintMessage := ⟨2, " Missing semicolon ", 3, 5, some "semi"⟩

/-- An eslint result for the C3 witness. -/
def c3Res : EslintResult := ⟨"src/app.js", [c3Msg]⟩

/-- A detect environment whose eslint arm yields one error. -/
def c3Env : DetectEnv :=
  ⟨fun p => p, some [c3Res], false, "SyntaxError: boom", []⟩

/-- C3 witness: the concrete environment short-circuits on the lint arm. -/
theorem lint_short_circuit_witness :
    detectErrors c3Env "src/app.js" =
      (eslintErrors c3Env.relp "src/app.js" c3Env.files [c3Res],
        [Strategy.lint]) :=
  (lint_short_circuit c3Env "src/app.js" c3Res [] rfl (by decide) (by decide)).1

/-- C4: when the eslint arm yields no records and `node -c` exits cleanly,
`detectErrors` returns the empty sequence, with both strategies invoked
and nothing after the syntax check. -/
theorem syntax_success_empty (env : DetectEnv) (fp : String)
    (h1 : ∀ results, env.eslintResults = some results →
      eslintErrors env.relp fp env.files results = [])
    (h2 : env.nodeOk = true) :
    detectErrors env fp = ([], [Strategy.lint, Strategy.syntaxCheck]) := by
  have hb : nodeBranch env fp = ([], [Strategy.lint, Strategy.syntaxCheck]) := by
    unfold nodeBranch
    rw [h2]
    simp
  unfold detectErrors
  cases hres : env.eslintResults with
  | none => exact hb
  | some results =>
    cases results with
    | nil => exact hb
    | cons r0 rs =>
      by_cases hm : r0.messages.length = 0
      · simp [hm, hb]
      · have hz := h1 (r0 :: rs) hres
        simp [hm, hz, hb]

/-- A detect environment with a clean eslint run and a clean syntax check. -/
def c4Env : DetectEnv := ⟨fun p => p, some [], true, "", []⟩

/-- C4 witness: the concrete environment returns no records. -/
theorem syntax_success_empty_witness :
    detectErrors c4Env "src/app.js" = ([], [Strategy.lint, Strategy.syntaxCheck]) :=
  syntax_success_empty c4Env "src/app.js" (by intro r hr; cases hr; rfl) rfl

/-- The syntax-attempt step changes only the `sourceCode` field. -/
theorem syntaxAttempt_fields (files : FS) (d : SynDetails) :
    (syntaxAttempt files d).message = d.message ∧
    (syntaxAttempt files d).filePath = d.filePath ∧
    (syntaxAttempt files d).line = d.line ∧
    (syntaxAttempt files d).column = d.column := by
  unfold syntaxAttempt
  split
  · exact ⟨rfl, rfl, rfl, rfl⟩
  · split
    · split
      · exact ⟨rfl, rfl, rfl, rfl⟩
      · exact ⟨rfl, rfl, rfl, rfl⟩
    · exact ⟨rfl, rfl, rfl, rfl⟩

/-- C5 (corrected): with nothing from the eslint arm and a failing
`node -c` whose output matches pattern 1, the first matching pattern does
win, but the fixed-index extraction of lines 194-199 fills the record with
the pattern-1 groups at the pattern-2 positions: the message is the line
digits (group 2), the path is the column digits (group 3), the line is
`parseInt` of the trailing message line (group 4, `1` on NaN), and the
column is `parseInt` of the column digits (group 3). -/
theorem pattern_priority (env : DetectEnv) (fp g1 g2 g3 g4 : String)
    (hes : env.eslintResults = none)
    (hn : env.nodeOk = false) (ho : ¬ env.nodeErrOutput = "")
    (h : matchP1 env.nodeErrOutput = some (g1, g2, g3, g4))
    (hg2 : g2 ≠ "") (hg3 : g3 ≠ "") (hg4 : g4 ≠ "") :
    ∃ r, (detectErrors env fp).1 = [r] ∧
      r.message = trimStr g2 ∧
      r.filePath = env.relp g3 ∧
      r.line = jsOrInt1 (jsParseInt g4) ∧
      r.column = jsOrInt1 (jsParseInt g3) ∧
      r.source = "node-syntax" := by
  have hmp : matchPatterns env.nodeErrOutput fp =
      some (detailsOf ⟨some g1, some g2, some g3, some g4, none⟩ fp) := by
    unfold matchPatterns
    rw [h]
  have hde : detectErrors env fp = nodeBranch env fp := by
    unfold detectErrors
    rw [hes]
  have hdm : (detailsOf ⟨some g1, some g2, some g3, some g4, none⟩ fp).message
      = g2 := by
    simp [detailsOf, strOrElse, truthyOpt, hg2]
  have hdf : (detailsOf ⟨some g1, some g2, some g3, some g4, none⟩ fp).filePath
      = g3 := by
    simp [detailsOf, jsOrStr, hg3]
  have hdl : (detailsOf ⟨some g1, some g2, some g3, some g4, none⟩ fp).line
      = jsParseInt g4 := by
    simp [detailsOf, strOrElse, truthyOpt, hg4]
  have hdc : (detailsOf ⟨some g1, some g2, some g3, some g4, none⟩ fp).column
      = jsParseInt g3 := by
    simp [detailsOf, strOrElse, truthyOpt, hg3]
  have hsf := syntaxAttempt_fields env.files
    (detailsOf ⟨some g1, some g2, some g3, some g4, none⟩ fp)
  have hnb : nodeBranch env fp =
      ([createError env.relp fp
          (syntaxAttempt env.files
            (detailsOf ⟨some g1, some g2, some g3, some g4, none⟩ fp)).message
          (some (syntaxAttempt env.files
            (detailsOf ⟨some g1, some g2, some g3, some g4, none⟩ fp)).filePath)
          (syntaxAttempt env.files
            (detailsOf ⟨some g1, some g2, some g3, some g4, none⟩ fp)).line
          (syntaxAttempt env.files
            (detailsOf ⟨some g1, some g2, some g3, some g4, none⟩ fp)).column
          (some "node-syntax")
          (syntaxAttempt env.files
            (detailsOf ⟨some g1, some g2, some g3, some g4, none⟩ fp)).sourceCode],
        [Strategy.lint, Strategy.syntaxCheck]) := by
    unfold nodeBranch
    rw [hn]
    simp only [Bool.false_eq_true, if_false, ho, hmp]
  refine ⟨_, by rw [hde, hnb], ?_, ?_, ?_, ?_, rfl⟩
  · rw [show (createError env.relp fp _ _ _ _ _ _).message = trimStr _ from rfl,
      hsf.1, hdm]
  · rw [show (createError env.relp fp _ _ _ _ _ _).filePath
        = env.relp (jsOrStr (some _) fp) from rfl, hsf.2.1, hdf]
    simp [jsOrStr, hg3]
  · rw [show (createError env.relp fp _ _ _ _ _ _).line = jsOrInt1 _ from rfl,
      hsf.2.2.1, hdl]
  · rw [show (createError env.relp fp _ _ _ _ _ _).column = jsOrInt1 _ from rfl,
      hsf.2.2.2, hdc]

/-- A syntax-checker text matching both the stack-trace shape (pattern 1)
and the colon-message shape (pattern 2). -/
def c5Output : String := "app.js:3:7\nSyntaxError: boom"

/-- A detect environment whose `node -c` fails with that text. -/
def c5Env : DetectEnv := ⟨fun p => p, none, false, c5Output, []⟩

/-- C5 counterexample: on `app.js:3:7\nSyntaxError: boom` — which matches
both shapes — the claim expects the stack-trace fields (message
`SyntaxError: boom`, path `app.js`, line 3, column 7), but the record
actually built carries message `3`, path `7`, line `1` and column `7`. -/
theorem pattern_priority_cex :
    matchP1 c5Output = some ("app.js", "3", "7", "SyntaxError: boom") ∧
    (matchP2 c5Output).isSome = true ∧
    (detectErrors c5Env "app.js").1 =
      [⟨"3", "7", 1, 7, "node-syntax", none⟩] ∧
    (detectErrors c5Env "app.js").1 ≠
      [⟨"SyntaxError: boom", "app.js", 3, 7, "node-syntax", none⟩] := by
  exact ⟨by decide, by decide, by decide, by decide⟩

/-- C5 witness: the corrected statement applied at the concrete text. -/
theorem pattern_priority_witness :
    ∃ r, (detectErrors c5Env "app.js").1 = [r] ∧
      r.message = trimStr "3" ∧
      r.filePath = c5Env.relp "7" ∧
      r.line = jsOrInt1 (jsParseInt "SyntaxError: boom") ∧
      r.column = jsOrInt1 (jsParseInt "7") ∧
      r.source = "node-syntax" :=
  pattern_priority c5Env "app.js" "app.js" "3" "7" "SyntaxError: boom" rfl rfl
    (by decide) (by decide) (by decide) (by decide) (by decide)

/-- C6: with zero file-based detections and a caller-supplied error
string, the lookup flow synthesizes exactly one record, with source
`user-provided`, line 0 (and column 0, file `options.file || 'unknown'`). -/
theorem user_fallback_synthesis (detected : List (ErrorRecord × String))
    (err : String) (optFile : Option String)
    (h0 : detected = []) (h1 : err ≠ "") :
    lookupAllErrors detected (some err) optFile =
      some [LookupRecord.mk err (jsOrStr optFile "unknown") 0 0 "user-provided"] := by
  subst h0
  simp [lookupAllErrors, jsStrTruthy, h1]

/-- C6 witness: a concrete user-supplied error with no detections. -/
theorem user_fallback_synthesis_witness :
    lookupAllErrors [] (some "TypeError: x is not a function") none =
      some [LookupRecord.mk "TypeError: x is not a function" "unknown"
        0 0 "user-provided"] :=
  user_fallback_synthesis [] "TypeError: x is not a function" none rfl (by decide)

/-- C7 (corrected): the gate push actually applies is the `steps` field,
checked after the token: with a token present, a readable and parsable
session file whose `steps` is absent, falsy or empty, push fails with the
no-recorded-steps error and issues no network request.  The `commands`
field plays no role (`push_empty_rejected_cex` shows a `commands: []`
session being posted). -/
theorem push_no_steps_rejected (env : PushEnv) (files : FS)
    (sid content : String) (sd : JValue) (hsid : sid ≠ "")
    (hread : readFS files (sessionPathOf sid) = some content)
    (htok : jsStrTruthy (jsOrOpt2 env.envToken env.cfgToken) = true)
    (hparse : parseJson content = some sd)
    (hsteps : stepsMissing sd = true) :
    pushCmd env files (some sid) = ⟨Outcome.errored noStepsMsg, []⟩ := by
  have ht : jsStrTruthy (some sid) = true := by simp [jsStrTruthy, hsid]
  unfold pushCmd
  rw [ht]
  simp only [if_true, Option.getD_some, hread, htok, hparse, hsteps]

/-- A session file with no `steps` field, for the C7 witness. -/
def c7bContent : String := "\x7b\"id\": \"abc123\"\x7d"

/-- A push environment with a token and no git context. -/
def c7Env : PushEnv := ⟨some "tok", none, "2024-01-01T00:00:00.000Z", none⟩

/-- C7 witness: a stored session without steps is rejected with the
no-recorded-steps error and no request. -/
theorem push_no_steps_rejected_witness :
    pushCmd c7Env [(sessionPathOf "abc123", c7bContent)] (some "abc123") =
      ⟨Outcome.errored noStepsMsg, []⟩ :=
  push_no_steps_rejected c7Env [(sessionPathOf "abc123", c7bContent)]
    "abc123" c7bContent (JValue.obj [("id", JValue.str "abc123")])
    (by decide) rfl (by decide) rfl rfl

/-- A session file whose `commands` is empty but whose `steps` is not. -/
def c7Content : String :=
  "\x7b\"id\": \"abc123\", \"commands\": [], \"steps\": [\"ran tests\"]\x7d"

/-- The filesystem holding that session. -/
def c7Files : FS := [(sessionPathOf "abc123", c7Content)]

/-- C7 counterexample: a session with `commands: []` is not rejected —
because `steps` is nonempty, push attaches metadata and issues the
`POST /api/sessions` request, refuting the claimed `EmptySession`
rejection with no network call. -/
theorem push_empty_rejected_cex :
    (parseJson c7Content).bind (fun sd => jsGet sd "commands") =
      some (JValue.arr []) ∧
    (pushCmd c7Env c7Files (some "abc123")).net.length = 1 ∧
    (pushCmd c7Env c7Files (some "abc123")).outcome =
      Outcome.completed "Session pushed successfully!" :=
  ⟨rfl, rfl, rfl⟩
